import Mathlib

/-!
# clipman: history store, selector encoding and clear action

A shallow embedding of `storer.go`, `selector.go` and the `clear` case of
`main.go`.

* Go strings are byte sequences (`GoString`); tool names, paths and messages,
  which the program only compares with ASCII literals, are Lean strings.
* Go's `int` is a 64-bit two's-complement integer: arithmetic is done in `Int`
  and wrapped by `wrapInt`.
* Everything the program does to the outside world is recorded, in order, as
  a list of `Effect`s; what the outside world answers is read from an `Env`.
* `norm.NFC` belongs to an external library and is a parameter `nfc`.
-/

namespace Clipman

/-! ## Data model -/

/-- A Go `string`: a sequence of bytes. -/
abbrev GoString := List UInt8

/-- The history: oldest entry first, newest last (`[]string`). -/
abbrev History := List GoString

/-- Wrap-around of Go's 64-bit `int`. -/
def wrapInt (x : Int) : Int := (x + 2 ^ 63) % 2 ^ 64 - 2 ^ 63

/-- What the program does to the outside world. -/
inductive Effect where
  /-- Attempt of `os.WriteFile(histfile, json(history))`, from `write`. -/
  | writeFile (histfile : String) (history : History)
  /-- Call of `serveTxt(text)`: a detached `wl-copy` now offers `text`. -/
  | serve (text : GoString)
  /-- Call of `os.Stdout.WriteString(bytes)`. -/
  | stdout (bytes : GoString)
  /-- Call of `fmt.Println(line)`. -/
  | println (line : String)
  /-- Run of `wl-copy -c`, from `wipeAll`. -/
  | clearClipboard
  /-- Call of `os.Remove(histfile)`, from `wipeAll`. -/
  | remove (histfile : String)
  /-- Call of `smartLog(message, urgency, alert)`. -/
  | log (message : String) (urgency : String)
  deriving DecidableEq, Repr

/-- The answers of the outside world; `none` stands for a `nil` error. -/
structure Env where
  /-- Error of `os.WriteFile`. -/
  writeFile : String → History → Option String
  /-- The result of `exec.LookPath`. -/
  lookPath : String → Option String
  /-- The result of `shellquote.Split`. -/
  shellSplit : String → Except String (List String)
  /-- The result of `cmd.Output()` for a binary, its arguments and its stdin:
  the bytes the tool printed, or `err.Error()`. -/
  output : String → List String → GoString → Except String GoString
  /-- Error of running `wl-copy -c`. -/
  wlCopyClear : Option String
  /-- Error of `os.Remove`. -/
  removeFile : String → Option String

/-- How a call ends: it returns, the process exits (`os.Exit`), or the Go
runtime panics; each with the effects performed up to that point. -/
inductive Outcome (α : Type) where
  | ret (value : α) (effects : List Effect)
  | exit (code : Nat) (effects : List Effect)
  | panic (effects : List Effect)
  deriving DecidableEq, Repr

/-- The effects performed by a call. -/
def Outcome.effects {α : Type} : Outcome α → List Effect
  | .ret _ es => es
  | .exit _ es => es
  | .panic es => es

/-- Run `es` first, then the call `o`. -/
def Outcome.after {α : Type} (es : List Effect) : Outcome α → Outcome α
  | .ret v es2 => .ret v (es ++ es2)
  | .exit c es2 => .exit c (es ++ es2)
  | .panic es2 => .panic (es ++ es2)

/-- The history handed to the first `write` among the effects, if any. -/
def writtenIn : List Effect → Option History
  | [] => none
  | .writeFile _ h :: _ => some h
  | _ :: es => writtenIn es

/-- The texts served, in order. -/
def servedIn : List Effect → List GoString
  | [] => []
  | .serve t :: es => t :: servedIn es
  | _ :: es => servedIn es

/-- The served buffer after the effects, when it was `before`: the last text
served, nothing after the clipboard is cleared. -/
def servedAfter (before : Option GoString) : List Effect → Option GoString
  | [] => before
  | .serve t :: es => servedAfter (some t) es
  | .clearClipboard :: es => servedAfter none es
  | _ :: es => servedAfter before es

/-- The slice expression `xs[start:]`; `none` is the out-of-range panic. -/
def sliceFrom {α : Type} (xs : List α) (start : Int) : Option (List α) :=
  if start < 0 ∨ start > (xs.length : Int) then none else some (xs.drop start.toNat)

/-- Modelled from the spec: `smartLog` is called by `main` but is not among
the source files; errors are "reported through the notification
collaborator", which is recorded as one `log` effect. Every call of it below
is followed by a `return` or by the end of `main`. -/
def smartLog (message urgency : String) : List Effect := [.log message urgency]

/-- The function `serveTxt`: `wl-copy -t TEXT` (with `-p` for the primary
selection) is started detached with `s` on its input; the start is recorded
as one `serve` effect. -/
def serveTxt (s : GoString) : List Effect := [.serve s]

/-! ## storer.go -/

/-- Removes all occurrences of text (`filter`). -/
def filter (slice : History) (text : GoString) : History :=
  slice.foldl (fun filtered s => if s ≠ text then filtered ++ [s] else filtered) []

/-- Dumps history to the JSON file (`write`): `json.Marshal` of a `[]string`
cannot fail, the error is the one of `os.WriteFile`. -/
def write (env : Env) (history : History) (histfile : String) : Option String × List Effect :=
  (env.writeFile histfile history, [.writeFile histfile history])

/-- The three ways the `if l > 0` block of `store` ends. -/
inductive Trim where
  /-- Early `return nil`: the text is the last entry. -/
  | same
  /-- The slice expression panics. -/
  | outOfRange
  /-- The block falls through with this value of `history`. -/
  | next (history : History)
  deriving DecidableEq, Repr

/-- The `if l > 0 { ... }` block of `store`. -/
def storeTrim (text : GoString) (history : History) (maxChar : Int) : Trim :=
  let l : Int := history.length
  if l > 0 then
    let last := history.getLast?
    if some text = last then .same
    else
      let dropped : Option History :=
        if maxChar ≠ 0 ∧ l ≥ maxChar then
          sliceFrom history (wrapInt (wrapInt (l - maxChar) + 1))
        else some history
      match dropped with
      | none => .outOfRange
      | some history => .next (filter history text)
  else .next history

/-- The function `store`; the value returned is its `error`. -/
def store (env : Env) (text : GoString) (history : History) (histfile : String)
    (maxChar : Int) (persist : Bool) : Outcome (Option String) :=
  if text = [] then .ret none []
  else
    match storeTrim text history maxChar with
    | .same => .ret none []
    | .outOfRange => .panic []
    | .next history =>
      let history := history ++ [text]
      match write env history histfile with
      | (some err, es) => .ret (some ("error writing history: " ++ err)) es
      | (none, es) => if persist then .ret none (es ++ serveTxt text) else .ret none es

/-! ## selector.go -/

/-- A `map[string]string` as a list of key/value pairs with distinct keys. -/
abbrev Guide := List (GoString × GoString)

/-- The assignment `guide[k] = v`. -/
def Guide.set (g : Guide) (k v : GoString) : Guide :=
  (k, v) :: g.filter (fun p => p.1 ≠ k)

/-- The lookup `guide[k]`. -/
def Guide.get? (g : Guide) (k : GoString) : Option GoString :=
  (g.find? (fun p => p.1 = k)).map (fun p => p.2)

/-- Left-to-right scan of `strings.ReplaceAll`: `skip` bytes of a match are
still to be passed over. -/
def replaceAux (old new : GoString) : Nat → GoString → GoString
  | _, [] => []
  | skip + 1, _ :: rest => replaceAux old new skip rest
  | 0, c :: rest =>
    if old.isPrefixOf (c :: rest) then new ++ replaceAux old new (old.length - 1) rest
    else c :: replaceAux old new 0 rest

/-- The call `strings.ReplaceAll(s, old, new)` for a non-empty `old` (the
program only passes non-empty literals): the non-overlapping occurrences of
`old`, found from the left, are replaced by `new`. -/
def replaceAll (s old new : GoString) : GoString := replaceAux old new 0 s

/-- The call `strings.Join(elems, sep)`. -/
def join : List GoString → GoString → GoString
  | [], _ => []
  | [e], _ => e
  | e :: es, sep => e ++ sep ++ join es sep

/-- The `if escape { ... }` block of `preprocessData`: six replacements, in
the order of the source. -/
def escapeRepr (repr : GoString) : GoString :=
  let repr := replaceAll repr [0x5c, 0x6e] [0x5c, 0x5c, 0x6e]
  let repr := replaceAll repr [0x0a] [0x5c, 0x6e]
  let repr := replaceAll repr [0x5c, 0x74] [0x5c, 0x5c, 0x74]
  let repr := replaceAll repr [0x09] [0x5c, 0x74]
  let repr := replaceAll repr [0x5c, 0x72] [0x5c, 0x5c, 0x72]
  let repr := replaceAll repr [0x0d] [0x5c, 0x72]
  repr

/-- The body of the loop of `preprocessData` up to the guide update: the
representation of one entry. -/
def represent (nfc : GoString → GoString) (maxChars : Int) (escape normalize : Bool)
    (original : GoString) : GoString :=
  let repr := original
  let repr := if escape then escapeRepr repr else repr
  let repr :=
    if maxChars > 0 ∧ (repr.length : Int) > maxChars then repr.take maxChars.toNat else repr
  let repr := if normalize then nfc repr else repr
  repr

/-- The function `preprocessData`: the loop runs over the data from the last
index down to 0. -/
def preprocessData (nfc : GoString → GoString) (data : History) (maxChars : Int)
    (escape normalize : Bool) : List GoString × Guide :=
  data.reverse.foldl
    (fun (acc : List GoString × Guide) original =>
      let repr := represent nfc maxChars escape normalize original
      (acc.1 ++ [repr], acc.2.set repr original))
    ([], [])

/-- The `switch tool` of `selector`: the argument vector, or the error
returned. -/
def toolArguments (env : Env) (maxChar : Int) (tool prompt toolArgs : String) :
    Except String (List String) :=
  if tool = "dmenu" then
    .ok ["dmenu", "-b", "-fn",
      "-misc-dejavu sans mono-medium-r-normal--17-120-100-100-m-0-iso8859-16",
      "-l", toString maxChar]
  else if tool = "bemenu" then
    .ok ["bemenu", "--prompt", prompt, "--list", toString maxChar]
  else if tool = "rofi" then
    .ok ["rofi", "-p", prompt, "-dmenu", "-lines", toString maxChar]
  else if tool = "wofi" then
    .ok ["wofi", "-p", prompt, "--cache-file", "/dev/null", "--dmenu"]
  else if tool = "CUSTOM" then
    if toolArgs.length = 0 then .error "missing tool args for CUSTOM tool"
    else
      match env.shellSplit toolArgs with
      | .error err => .error ("selector: " ++ err)
      | .ok args => .ok args
  else .error ("unsupported tool: " ++ tool)

/-- The end of `selector`, from the output `b` of the tool on. -/
def recover (nfc : GoString → GoString) (guide : Guide) (b : GoString)
    (errorOnNoSelection normalize : Bool) : Outcome (GoString × Option String) :=
  if b.length = 0 then
    if errorOnNoSelection then .exit 1 [] else .ret ([], none) []
  else
    let b := if b.getLast? = some 0x0a then b.dropLast else b
    let b := if normalize then nfc b else b
    match guide.get? b with
    | none => .ret ([], some "couldn't recover original string") []
    | some sel => .ret (sel, none) []

/-- The function `selector`; it returns the selection and the error. -/
def selector (env : Env) (nfc : GoString → GoString) (data : History) (maxChar : Int)
    (tool prompt toolArgs : String) (null errorOnNoSelection normalize : Bool) :
    Outcome (GoString × Option String) :=
  if data.length = 0 then .ret ([], some "nothing to show: no data available") []
  else if tool = "STDOUT" then
    let escaped := (preprocessData nfc data 0 (!null) normalize).1
    let sep : GoString := if null then [0x00] else [0x0a]
    .ret ([], none) [.stdout (join escaped sep)]
  else
    match toolArguments env maxChar tool prompt toolArgs with
    | .error err => .ret ([], some err) []
    | .ok args =>
      let resolved : Option (Except String (String × List String)) :=
        if tool = "CUSTOM" then
          match args with
          | [] => none
          | a :: _ => some (.ok (a, args))
        else if toolArgs.length > 0 then
          match env.shellSplit toolArgs with
          | .error err => some (.error ("selector: " ++ err))
          | .ok targs => some (.ok (tool, args ++ targs))
        else some (.ok (tool, args))
      match resolved with
      | none => .panic []
      | some (.error err) => .ret ([], some err) []
      | some (.ok (tool, args)) =>
        match env.lookPath tool with
        | none => .ret ([], some (tool ++ " is not installed")) []
        | some bin =>
          let (processed, guide) := preprocessData nfc data 1000 (!null) normalize
          let sep : GoString := if null then [0x00] else [0x0a]
          match env.output bin args (join processed sep) with
          | .error err =>
            if err = "exit status 1" ∨ err = "exit status 130" then
              if errorOnNoSelection then .exit 1 [] else .ret ([], none) []
            else .ret ([], some err) []
          | .ok b => recover nfc guide b errorOnNoSelection normalize

/-! ## main.go, the `clear` action -/

/-- The function `wipeAll`: clears the clipboard, then removes the file. -/
def wipeAll (env : Env) (histfile : String) : Option String × List Effect :=
  match env.wlCopyClear with
  | some err => (some err, [.clearClipboard])
  | none =>
    match env.removeFile histfile with
    | some err => (some err, [.clearClipboard, .remove histfile])
    | none => (none, [.clearClipboard, .remove histfile])

/-- The statement `if err := f(); err != nil { smartLog(err.Error(), urgency, *alert) }`. -/
def logError (urgency : String) : Option String × List Effect → List Effect
  | (some err, es) => es ++ smartLog err urgency
  | (none, es) => es

/-- The part of the `clear` case of `main` that follows a non-empty
selection. -/
def clearSelection (env : Env) (history : History) (histfile : String)
    (selection : GoString) : Outcome Unit :=
  if history.length < 2 then .ret () (logError "normal" (wipeAll env histfile))
  else
    let served : List Effect :=
      if some selection = history.getLast? then
        match history[history.length - 2]? with
        | some previous => serveTxt previous
        | none => []
      else []
    .ret () (served ++ logError "critical" (write env (filter history selection) histfile))

/-- The `clear` case of `main`, with the history already loaded; `normalize`
is the argument `selector` takes last. -/
def mainClear (env : Env) (nfc : GoString → GoString) (history : History) (histfile : String)
    (clearAll : Bool) (maxClearer : Int) (clearTool clearToolArgs : String)
    (clearEsc errorOnNoSelection normalize : Bool) : Outcome Unit :=
  if clearAll then .ret () (logError "normal" (wipeAll env histfile))
  else if clearTool = "" then
    .exit 1 [.println "clipman: error: required flag --tool or --all not provided, try --help"]
  else
    match selector env nfc history maxClearer clearTool "clear" clearToolArgs clearEsc
        errorOnNoSelection normalize with
    | .exit code es => .exit code es
    | .panic es => .panic es
    | .ret (selection, err) es =>
      let es := es ++ (match err with
        | some e => smartLog e "normal"
        | none => [])
      if selection = [] then .ret () es
      else Outcome.after es (clearSelection env history histfile selection)

/-! ## Statements of the specification and sample inputs -/

/-- The `k` newest elements of a history, in their order. -/
def newest (k : Nat) (history : History) : History :=
  history.drop (history.length - k)

/-- The three steps of `recordEntry` in the order of the spec: remove every
occurrence of the text; if `maxSize > 0` and the length after the removal is
`>= maxSize`, keep the `maxSize - 1` newest; append the text. -/
def recordEntrySpec (history : History) (text : GoString) (maxSize : Int) : History :=
  let removed := history.filter (fun s => s ≠ text)
  let kept :=
    if maxSize > 0 ∧ (removed.length : Int) ≥ maxSize then newest (maxSize.toNat - 1) removed
    else removed
  kept ++ [text]

/-- The same steps with the drop taken first, on the length before the
removal: if `maxSize > 0` and the history has `>= maxSize` elements, keep the
`maxSize - 1` newest; remove every occurrence of the text; append it. -/
def recordEntryDropFirst (history : History) (text : GoString) (maxSize : Int) : History :=
  let kept :=
    if maxSize > 0 ∧ (history.length : Int) ≥ maxSize then newest (maxSize.toNat - 1) history
    else history
  kept.filter (fun s => s ≠ text) ++ [text]

/-- The history after a call of `store`: the one written, the given one when
nothing is written. -/
def historyAfter (history : History) (o : Outcome (Option String)) : History :=
  (writtenIn o.effects).getD history

/-- An environment in which every call succeeds and the selection tool
prints `out`. -/
def toolPrints (out : GoString) : Env where
  writeFile := fun _ _ => none
  lookPath := fun tool => some ("/usr/bin/" ++ tool)
  shellSplit := fun _ => .ok []
  output := fun _ _ _ => .ok out
  wlCopyClear := none
  removeFile := fun _ => none

/-- The bytes of "café" with the precomposed U+00E9. -/
def cafeComposed : GoString := [0x63, 0x61, 0x66, 0xc3, 0xa9]

/-- The bytes of "cafe" followed by the combining acute accent U+0301. -/
def cafeDecomposed : GoString := [0x63, 0x61, 0x66, 0x65, 0xcc, 0x81]

/-- A sample normaliser to put in the place of `nfc`: it composes the one
string `cafeDecomposed` and leaves every other string as it is. -/
def composeSample (s : GoString) : GoString :=
  if s = cafeDecomposed then cafeComposed else s

/-! ## Lemmas on the store -/

theorem filter_foldl (text : GoString) (slice acc : History) :
    slice.foldl (fun filtered s => if s ≠ text then filtered ++ [s] else filtered) acc
      = acc ++ slice.filter (fun s => s ≠ text) := by
  induction slice generalizing acc with
  | nil => simp
  | cons x xs ih =>
    rw [List.foldl_cons, ih]
    by_cases h : x = text
    · simp [h]
    · simp [h]

theorem filter_eq (slice : History) (text : GoString) :
    filter slice text = slice.filter (fun s => s ≠ text) := by
  unfold filter
  rw [filter_foldl]
  rfl

theorem wrapInt_of_range (x : Int) (h1 : -2 ^ 63 ≤ x) (h2 : x < 2 ^ 63) : wrapInt x = x := by
  unfold wrapInt
  norm_num at h1 h2 ⊢
  omega

theorem storeTrim_next (text : GoString) (history : History) (maxChar : Int)
    (hlast : some text ≠ history.getLast?) (hmax : 0 ≤ maxChar)
    (hlen : (history.length : Int) < 2 ^ 63) :
    storeTrim text history maxChar
      = .next ((if maxChar > 0 ∧ (history.length : Int) ≥ maxChar
          then newest (maxChar.toNat - 1) history else history).filter (fun s => s ≠ text)) := by
  unfold storeTrim
  by_cases hl : (history.length : Int) > 0
  · simp only [hl, if_true, hlast, if_false]
    by_cases hc : maxChar > 0 ∧ (history.length : Int) ≥ maxChar
    · have hne : maxChar ≠ 0 := by omega
      have hw1 : wrapInt ((history.length : Int) - maxChar) = (history.length : Int) - maxChar := by
        apply wrapInt_of_range <;> norm_num at hlen ⊢ <;> omega
      have hw2 : wrapInt ((history.length : Int) - maxChar + 1) = (history.length : Int) - maxChar + 1 := by
        apply wrapInt_of_range <;> norm_num at hlen ⊢ <;> omega
      have hs : sliceFrom history ((history.length : Int) - maxChar + 1)
          = some (newest (maxChar.toNat - 1) history) := by
        unfold sliceFrom newest
        have : ¬ ((history.length : Int) - maxChar + 1 < 0 ∨
            (history.length : Int) - maxChar + 1 > (history.length : Int)) := by omega
        simp only [this, if_false]
        congr 2
        omega
      simp only [hne, ne_eq, not_false_eq_true, hc.2, and_self, if_true, hw1, hw2, hs, hc, filter_eq]
    · have hc2 : ¬ (maxChar ≠ 0 ∧ (history.length : Int) ≥ maxChar) := by
        intro h; apply hc; constructor <;> omega
      simp only [hc, hc2, if_false, filter_eq]
  · have hnil : history = [] := by
      cases history with
      | nil => rfl
      | cons x xs => simp at hl
    subst hnil
    simp

theorem writtenIn_store (env : Env) (text : GoString) (history : History) (histfile : String)
    (maxChar : Int) (persist : Bool) (kept : History) (htext : text ≠ [])
    (h : storeTrim text history maxChar = .next kept) :
    writtenIn (store env text history histfile maxChar persist).effects = some (kept ++ [text]) := by
  unfold store
  simp only [htext, if_false, h, write]
  cases env.writeFile histfile (kept ++ [text]) <;> cases persist <;>
    simp [Outcome.effects, writtenIn, serveTxt]

/-! ## Theorems on the store -/

/-- C1, as stated, fails: for the history [a, b, c], the text b and the
maximum 3, `store` writes [c, b], while the three steps in the order of the
spec give [a, c, b]. -/
theorem store_order_counterexample :
    writtenIn (store (toolPrints []) [0x62] [[0x61], [0x62], [0x63]] "h.json" 3 true).effects
        = some [[0x63], [0x62]]
      ∧ recordEntrySpec [[0x61], [0x62], [0x63]] [0x62] 3 = [[0x61], [0x63], [0x62]] := by
  decide

/-- C1, amended: for every history (of a length a Go slice can have), every
non-empty text that differs from its last element and every maximum
`>= 0`, the history that `store` writes is the result of these steps in this
order: if the maximum is `> 0` and the history has at least that many
elements, keep the `max - 1` newest; remove every occurrence of the text;
append the text. -/
theorem store_writes_drop_first (env : Env) (text : GoString) (history : History)
    (histfile : String) (maxChar : Int) (persist : Bool)
    (htext : text ≠ []) (hlast : some text ≠ history.getLast?) (hmax : 0 ≤ maxChar)
    (hlen : (history.length : Int) < 2 ^ 63) :
    writtenIn (store env text history histfile maxChar persist).effects
      = some (recordEntryDropFirst history text maxChar) :=
  writtenIn_store env text history histfile maxChar persist _ htext
    (storeTrim_next text history maxChar hlast hmax hlen)

/-- Witness of C1, amended: the history [a, b, c], the text b and the maximum
3 give [c, b]. -/
theorem store_writes_drop_first_witness :
    writtenIn (store (toolPrints []) [0x62] [[0x61], [0x62], [0x63]] "h.json" 3 true).effects
        = some (recordEntryDropFirst [[0x61], [0x62], [0x63]] [0x62] 3)
      ∧ recordEntryDropFirst [[0x61], [0x62], [0x63]] [0x62] 3 = [[0x63], [0x62]] :=
  ⟨store_writes_drop_first (toolPrints []) [0x62] [[0x61], [0x62], [0x63]] "h.json" 3 true
    (by decide) (by decide) (by decide) (by decide), by decide⟩

/-- C3, as stated, fails when `store` does nothing: for the empty text the
history ["", a] stays as it is, with the empty text not last; for the text b
the history [b, a, b] stays as it is, with b twice. -/
theorem store_result_counterexample :
    (historyAfter [[], [0x61]] (store (toolPrints []) [] [[], [0x61]] "h.json" 0 true)
        = [[], [0x61]]
      ∧ [] ∈ ([[], [0x61]] : History) ∧ ([[], [0x61]] : History).getLast? ≠ some [])
    ∧ (historyAfter [[0x62], [0x61], [0x62]]
          (store (toolPrints []) [0x62] [[0x62], [0x61], [0x62]] "h.json" 0 true)
        = [[0x62], [0x61], [0x62]]
      ∧ ([[0x62], [0x61], [0x62]] : History).count [0x62] = 2) := by
  decide

/-- C3, amended: for every history (of a length a Go slice can have), every
text and every maximum `>= 0`, the history after `store` holds the text at
most once, and when it holds the text, the text is its last element, provided
that in the two cases where `store` returns without writing the history as
loaded already is so: when the text is empty or is the last element, the
history holds it at most once, and when the text is empty and occurs, it is
the last element. Nothing is asked of the history when `store` writes. -/
theorem store_result_text_last (env : Env) (text : GoString) (history : History)
    (histfile : String) (maxChar : Int) (persist : Bool) (hmax : 0 ≤ maxChar)
    (hlen : (history.length : Int) < 2 ^ 63)
    (honce : text = [] ∨ some text = history.getLast? → history.count text ≤ 1)
    (hempty : text = [] → text ∈ history → history.getLast? = some text) :
    (historyAfter history (store env text history histfile maxChar persist)).count text ≤ 1
      ∧ (text ∈ historyAfter history (store env text history histfile maxChar persist) →
          (historyAfter history (store env text history histfile maxChar persist)).getLast?
            = some text) := by
  by_cases htext : text = []
  · have hs : store env text history histfile maxChar persist = .ret none [] := by
      simp [store, htext]
    rw [hs]
    simp only [historyAfter, Outcome.effects, writtenIn, Option.getD_none]
    exact ⟨honce (Or.inl htext), hempty htext⟩
  · by_cases hlast : some text = history.getLast?
    · have hne : history ≠ [] := by
        intro h
        simp [h] at hlast
      have hpos : (history.length : Int) > 0 := by
        have := List.length_pos.mpr hne
        omega
      have hs : store env text history histfile maxChar persist = .ret none [] := by
        simp [store, storeTrim, htext, hpos, hlast]
      rw [hs]
      simp only [historyAfter, Outcome.effects, writtenIn, Option.getD_none]
      exact ⟨honce (Or.inr hlast), fun _ => hlast.symm⟩
    · rw [historyAfter, store_writes_drop_first env text history histfile maxChar persist
        htext hlast hmax hlen]
      simp [recordEntryDropFirst, List.count_append, List.count_eq_zero]

/-- Witness of C3, amended: the history [b, b, a], which holds b twice, with
the text b and no maximum is written as [a, b]. -/
theorem store_result_text_last_witness :
    historyAfter [[0x62], [0x62], [0x61]]
        (store (toolPrints []) [0x62] [[0x62], [0x62], [0x61]] "h.json" 0 true)
        = [[0x61], [0x62]]
      ∧ ((historyAfter [[0x62], [0x62], [0x61]]
          (store (toolPrints []) [0x62] [[0x62], [0x62], [0x61]] "h.json" 0 true)).count
            [0x62] ≤ 1
        ∧ ([0x62] ∈ historyAfter [[0x62], [0x62], [0x61]]
            (store (toolPrints []) [0x62] [[0x62], [0x62], [0x61]] "h.json" 0 true) →
          (historyAfter [[0x62], [0x62], [0x61]]
            (store (toolPrints []) [0x62] [[0x62], [0x62], [0x61]] "h.json" 0 true)).getLast?
              = some [0x62])) :=
  ⟨by decide,
    store_result_text_last (toolPrints []) [0x62] [[0x62], [0x62], [0x61]] "h.json" 0 true
      (by decide) (by decide) (by decide) (by decide)⟩

/-- C4: for every history (of a length a Go slice can have) with at least
`maxChar > 0` elements and every non-empty text that does not occur in it,
`store` writes the `maxChar - 1` newest elements of the history, in their
order, followed by the text: a history of length `maxChar`. -/
theorem store_full_history (env : Env) (text : GoString) (history : History)
    (histfile : String) (maxChar : Int) (persist : Bool)
    (htext : text ≠ []) (hnew : text ∉ history) (hpos : 0 < maxChar)
    (hfull : maxChar ≤ (history.length : Int)) (hlen : (history.length : Int) < 2 ^ 63) :
    writtenIn (store env text history histfile maxChar persist).effects
        = some (history.drop (history.length - (maxChar.toNat - 1)) ++ [text])
      ∧ ((history.drop (history.length - (maxChar.toNat - 1)) ++ [text]).length : Int)
        = maxChar := by
  have hlast : some text ≠ history.getLast? := by
    intro h
    exact hnew (List.mem_of_getLast?_eq_some h.symm)
  refine ⟨?_, ?_⟩
  · rw [store_writes_drop_first env text history histfile maxChar persist htext hlast
      (le_of_lt hpos) hlen]
    have hc : maxChar > 0 ∧ (history.length : Int) ≥ maxChar := ⟨hpos, hfull⟩
    simp only [recordEntryDropFirst, hc, and_self, if_true, newest]
    congr 2
    apply List.filter_eq_self.mpr
    intro x hx
    have hx2 : x ∈ history := List.mem_of_mem_drop hx
    simp only [ne_eq, decide_eq_true_eq]
    intro h
    exact hnew (h ▸ hx2)
  · simp only [List.length_append, List.length_drop, List.length_singleton]
    omega

/-- Witness of C4: [a, b, c] with the new text d and the maximum 2 gives
[c, d]. -/
theorem store_full_history_witness :
    writtenIn (store (toolPrints []) [0x64] [[0x61], [0x62], [0x63]] "h.json" 2 false).effects
        = some ([[0x61], [0x62], [0x63]].drop (3 - ((2 : Int).toNat - 1)) ++ [[0x64]])
      ∧ ((([[0x61], [0x62], [0x63]] : History).drop (3 - ((2 : Int).toNat - 1))
          ++ [[0x64]]).length : Int) = 2 :=
  store_full_history (toolPrints []) [0x64] [[0x61], [0x62], [0x63]] "h.json" 2 false
    (by decide) (by decide) (by decide) (by decide) (by decide)

/-- C8: `store` called with the empty text, or with the text that is the last
element of the history, returns a nil error and performs no effect: no file
is written and nothing is served, whatever the maximum and the persist
flag. -/
theorem store_repeat_noop (env : Env) (text : GoString) (history : History)
    (histfile : String) (maxChar : Int) (persist : Bool)
    (h : text = [] ∨ some text = history.getLast?) :
    store env text history histfile maxChar persist = .ret none [] := by
  by_cases htext : text = []
  · simp [store, htext]
  · have hlast : some text = history.getLast? := h.resolve_left htext
    have hne : history ≠ [] := by
      intro h
      simp [h] at hlast
    have hpos : (history.length : Int) > 0 := by
      have := List.length_pos.mpr hne
      omega
    simp [store, storeTrim, htext, hpos, hlast]

/-- Witness of C8: the text c on the history [a, c], with a negative
maximum. -/
theorem store_repeat_noop_witness :
    store (toolPrints []) [0x63] [[0x61], [0x63]] "h.json" (-1) true = .ret none [] :=
  store_repeat_noop (toolPrints []) [0x63] [[0x61], [0x63]] "h.json" (-1) true
    (Or.inr (by decide))

/-- A negative maximum always ends in the panic: the guard `maxChar != 0 &&
l >= maxChar` lets it through, and the start index `l - maxChar + 1`, wrapped
or not, lies outside `0..l`. -/
theorem store_panics_of_negative (env : Env) (text : GoString) (history : History)
    (histfile : String) (maxChar : Int) (persist : Bool)
    (htext : text ≠ []) (hne : history ≠ []) (hlast : some text ≠ history.getLast?)
    (hneg : maxChar < 0) (hmin : -2 ^ 63 ≤ maxChar)
    (hlen : (history.length : Int) < 2 ^ 63 - 1) :
    store env text history histfile maxChar persist = .panic [] := by
  have hpos : (history.length : Int) > 0 := by
    have := List.length_pos.mpr hne
    omega
  have hguard : maxChar ≠ 0 ∧ (history.length : Int) ≥ maxChar := ⟨by omega, by omega⟩
  have hslice : sliceFrom history (wrapInt (wrapInt ((history.length : Int) - maxChar) + 1))
      = none := by
    unfold sliceFrom wrapInt
    norm_num at hmin hlen ⊢
    omega
  simp [store, storeTrim, htext, hpos, hlast, hguard, hslice]

/-- C10 fails at a negative maximum: for the history [a], the text b and
`--max-items=-1` the start index of the slice is 3, beyond the length 1, and
`store` ends in a panic before anything is written. -/
theorem store_negative_max_panics :
    wrapInt (wrapInt (1 - (-1)) + 1) = 3
      ∧ sliceFrom ([[0x61]] : History) 3 = none
      ∧ store (toolPrints []) [0x62] [[0x61]] "h.json" (-1) true = .panic [] := by
  decide

/-! ## Lemmas on the guide and the representations -/

theorem Guide.get?_set (g : Guide) (k v k2 : GoString) :
    (g.set k v).get? k2 = if k = k2 then some v else g.get? k2 := by
  unfold Guide.set Guide.get?
  by_cases h : k = k2
  · simp [h]
  · simp only [h, if_false, List.find?_cons, decide_False, List.find?_filter]
    congr 2
    funext p
    by_cases hp : p.1 = k2
    · have : ¬ k2 = k := fun e => h e.symm
      simp [hp, this]
    · simp [hp]

theorem preprocessData_cons (nfc : GoString → GoString) (d : GoString) (ds : History)
    (maxChars : Int) (escape normalize : Bool) :
    preprocessData nfc (d :: ds) maxChars escape normalize
      = ((preprocessData nfc ds maxChars escape normalize).1
            ++ [represent nfc maxChars escape normalize d],
          (preprocessData nfc ds maxChars escape normalize).2.set
            (represent nfc maxChars escape normalize d) d) := by
  simp [preprocessData, List.foldl_append]

theorem preprocessData_fst (nfc : GoString → GoString) (data : History)
    (maxChars : Int) (escape normalize : Bool) :
    (preprocessData nfc data maxChars escape normalize).1
      = data.reverse.map (represent nfc maxChars escape normalize) := by
  induction data with
  | nil => rfl
  | cons d ds ih => rw [preprocessData_cons]; simp [ih]

theorem preprocessData_get? (nfc : GoString → GoString) (data : History)
    (maxChars : Int) (escape normalize : Bool) (k : GoString) :
    (preprocessData nfc data maxChars escape normalize).2.get? k
      = data.find? (fun e => represent nfc maxChars escape normalize e = k) := by
  induction data with
  | nil => rfl
  | cons d ds ih =>
    rw [preprocessData_cons]
    simp only [Guide.get?_set, ih, List.find?_cons]
    by_cases h : represent nfc maxChars escape normalize d = k
    · simp [h]
    · simp [h]

/-! ## Theorems on the selector -/

/-- C2: for every history, `maxChars`, escape and normalize setting and
normaliser `nfc`, the list returned by `preprocessData` has at position `i`
the representation of `data[len-1-i]`; that representation is a key of the
guide, and the guide maps it to the oldest entry of the history with that
representation: to `data[len-1-i]` itself unless a different entry has the
same representation. -/
theorem preprocessData_guide (nfc : GoString → GoString) (data : History)
    (maxChars : Int) (escape normalize : Bool) (i : Nat) (hi : i < data.length) :
    ∃ original oldest j,
      data[data.length - 1 - i]? = some original
      ∧ (preprocessData nfc data maxChars escape normalize).1[i]?
          = some (represent nfc maxChars escape normalize original)
      ∧ data[j]? = some oldest
      ∧ j ≤ data.length - 1 - i
      ∧ represent nfc maxChars escape normalize oldest
          = represent nfc maxChars escape normalize original
      ∧ (∀ k e, k < j → data[k]? = some e →
          represent nfc maxChars escape normalize e
            ≠ represent nfc maxChars escape normalize original)
      ∧ (preprocessData nfc data maxChars escape normalize).2.get?
            (represent nfc maxChars escape normalize original) = some oldest
      ∧ ((∀ e ∈ data, represent nfc maxChars escape normalize e
            = represent nfc maxChars escape normalize original → e = original) →
          oldest = original) := by
  have hlt : data.length - 1 - i < data.length := by omega
  obtain ⟨original, horig⟩ : ∃ o, data[data.length - 1 - i]? = some o :=
    ⟨data[data.length - 1 - i], List.getElem?_eq_getElem hlt⟩
  have hmem : original ∈ data := List.getElem?_mem horig
  have hsome : (data.find? (fun e => represent nfc maxChars escape normalize e
      = represent nfc maxChars escape normalize original)).isSome := by
    rw [List.find?_isSome]
    exact ⟨original, hmem, by simp⟩
  obtain ⟨oldest, hfind⟩ := Option.isSome_iff_exists.mp hsome
  obtain ⟨hp, front, back, hsplit, hfront⟩ := List.find?_eq_some.mp hfind
  have hp2 : represent nfc maxChars escape normalize oldest
      = represent nfc maxChars escape normalize original := by simpa using hp
  have hbefore : ∀ k e, k < front.length → data[k]? = some e →
      represent nfc maxChars escape normalize e
        ≠ represent nfc maxChars escape normalize original := by
    intro k e hk he
    rw [hsplit, List.getElem?_append_left hk] at he
    have := hfront e (List.getElem?_mem he)
    simpa using this
  refine ⟨original, oldest, front.length, horig, ?_, ?_, ?_, hp2, hbefore, ?_, ?_⟩
  · rw [preprocessData_fst, List.getElem?_map, List.getElem?_reverse hi, horig]
    rfl
  · rw [hsplit, List.getElem?_append_right (le_refl _)]
    simp
  · by_contra hcon
    exact hbefore (data.length - 1 - i) original (by omega) horig rfl
  · rw [preprocessData_get?, hfind]
  · intro huniq
    exact huniq oldest (by rw [hsplit]; simp) hp2

/-- Witness of C2: with `maxChars = 1` the history ["ab", "ac", "x"] is shown
as ["x", "a", "a"]; the representation at position 1 comes from "ac"
(index 1) and the guide maps it to "ab" (index 0), the oldest entry shown
as "a". -/
theorem preprocessData_guide_witness :
    1 < ([[0x61, 0x62], [0x61, 0x63], [0x78]] : History).length
    ∧ ∃ original oldest j,
      ([[0x61, 0x62], [0x61, 0x63], [0x78]] : History)[3 - 1 - 1]? = some original
      ∧ (preprocessData id [[0x61, 0x62], [0x61, 0x63], [0x78]] 1 true false).1[1]?
          = some (represent id 1 true false original)
      ∧ ([[0x61, 0x62], [0x61, 0x63], [0x78]] : History)[j]? = some oldest
      ∧ j ≤ 3 - 1 - 1
      ∧ represent id 1 true false oldest = represent id 1 true false original
      ∧ (∀ k e, k < j → ([[0x61, 0x62], [0x61, 0x63], [0x78]] : History)[k]? = some e →
          represent id 1 true false e ≠ represent id 1 true false original)
      ∧ (preprocessData id [[0x61, 0x62], [0x61, 0x63], [0x78]] 1 true false).2.get?
            (represent id 1 true false original) = some oldest
      ∧ ((∀ e ∈ ([[0x61, 0x62], [0x61, 0x63], [0x78]] : History),
            represent id 1 true false e = represent id 1 true false original → e = original) →
          oldest = original) :=
  ⟨by decide, preprocessData_guide id [[0x61, 0x62], [0x61, 0x63], [0x78]] 1 true false 1
    (by decide)⟩

/-- C6, as stated, fails without the null flag: the one-entry history
["a", newline, "b"] is written with the newline escaped, as the four bytes
`a`, backslash, `n`, `b`, not byte for byte. -/
theorem selector_stdout_counterexample :
    selector (toolPrints []) id [[0x61, 0x0a, 0x62]] 15 "STDOUT" "pick" "" false false false
        = .ret ([], none) [.stdout [0x61, 0x5c, 0x6e, 0x62]]
      ∧ join ([[0x61, 0x0a, 0x62]] : History).reverse [0x0a] = [0x61, 0x0a, 0x62] := by
  decide

/-- C6, amended: for every non-empty history, either value of the null flag
and either value of the normalize flag, `selector` called with the tool
STDOUT writes the entries newest first, joined by the separator (NUL with the
null flag, a newline without it), and returns the empty selection with no
error; each entry is written unescaped with the null flag and escaped
without it, and after that normalised when the normalize flag is set. So with
the null flag and normalization off each entry is written byte for byte as
stored. -/
theorem selector_stdout (env : Env) (nfc : GoString → GoString) (data : History)
    (maxChar : Int) (prompt toolArgs : String) (null errorOnNoSelection normalize : Bool)
    (hdata : data ≠ []) :
    selector env nfc data maxChar "STDOUT" prompt toolArgs null errorOnNoSelection normalize
        = .ret ([], none)
            [.stdout (join
              (data.reverse.map (fun e =>
                if normalize then nfc (if null then e else escapeRepr e)
                else (if null then e else escapeRepr e)))
              (if null then [0x00] else [0x0a]))]
      ∧ (null = true → normalize = false →
          selector env nfc data maxChar "STDOUT" prompt toolArgs null errorOnNoSelection
            normalize = .ret ([], none) [.stdout (join data.reverse [0x00])]) := by
  have hl : data.length ≠ 0 := fun h => hdata (List.length_eq_zero.mp h)
  have hr : represent nfc 0 (!null) normalize = fun e =>
      if normalize then nfc (if null then e else escapeRepr e)
      else (if null then e else escapeRepr e) := by
    funext e
    cases null <;> cases normalize <;> simp [represent]
  have hsel : selector env nfc data maxChar "STDOUT" prompt toolArgs null errorOnNoSelection
      normalize = .ret ([], none)
        [.stdout (join
          (data.reverse.map (fun e =>
            if normalize then nfc (if null then e else escapeRepr e)
            else (if null then e else escapeRepr e)))
          (if null then [0x00] else [0x0a]))] := by
    unfold selector
    simp only [hl, if_false, if_true, preprocessData_fst, hr]
  refine ⟨hsel, ?_⟩
  intro hnull hnorm
  rw [hsel, hnull, hnorm]
  simp

/-- Witness of C6, amended: the history ["a", newline, "b"], ["c"] with the
null flag and normalization off is written as `c`, NUL, `a`, newline, `b`;
without the null flag and with the sample normaliser the composed and the
decomposed "café" are both written as the composed one, separated by a
newline. -/
theorem selector_stdout_witness :
    (selector (toolPrints []) id [[0x61, 0x0a, 0x62], [0x63]] 15 "STDOUT" "pick" "" true
        false false
        = .ret ([], none)
            [.stdout (join
              (([[0x61, 0x0a, 0x62], [0x63]] : History).reverse.map (fun e =>
                if false then id (if true then e else escapeRepr e)
                else (if true then e else escapeRepr e)))
              (if true then [0x00] else [0x0a]))]
      ∧ (true = true → false = false →
          selector (toolPrints []) id [[0x61, 0x0a, 0x62], [0x63]] 15 "STDOUT" "pick" "" true
            false false
            = .ret ([], none)
                [.stdout (join ([[0x61, 0x0a, 0x62], [0x63]] : History).reverse [0x00])]))
    ∧ join ([[0x61, 0x0a, 0x62], [0x63]] : History).reverse [0x00]
        = [0x63, 0x00, 0x61, 0x0a, 0x62]
    ∧ selector (toolPrints []) composeSample [cafeComposed, cafeDecomposed] 15 "STDOUT"
        "pick" "" false false true
        = .ret ([], none) [.stdout (cafeComposed ++ [0x0a] ++ cafeComposed)] :=
  ⟨selector_stdout (toolPrints []) id [[0x61, 0x0a, 0x62], [0x63]] 15 "pick" "" true false
      false (by decide),
    by decide, by decide⟩

/-- C7 fails: the entry backslash-newline and the entry backslash-`n` are
both shown as backslash-backslash-`n`; for the duplicate-free history made
of these two the guide has one key, which leads to the older entry, so the
newer one is not recovered. -/
theorem escape_collision :
    escapeRepr [0x5c, 0x0a] = [0x5c, 0x5c, 0x6e]
      ∧ escapeRepr [0x5c, 0x6e] = [0x5c, 0x5c, 0x6e]
      ∧ preprocessData id [[0x5c, 0x0a], [0x5c, 0x6e]] 0 true false
        = ([[0x5c, 0x5c, 0x6e], [0x5c, 0x5c, 0x6e]], [([0x5c, 0x5c, 0x6e], [0x5c, 0x0a])]) := by
  decide

/-- C9: with a normaliser `nfc` that is idempotent (a string is normal when
`nfc` leaves it as it is), `preprocessData` with normalization, no escaping
and no truncation returns the normal form of each entry in reverse input
order; every returned string is normal; two entries with the same normal
form are shown as the same string; with normalization disabled each entry is
returned unchanged, so distinct entries stay distinct. -/
theorem preprocessData_normalize (nfc : GoString → GoString) (data : History)
    (hnf : ∀ s, nfc (nfc s) = nfc s) :
    (preprocessData nfc data 0 false true).1 = data.reverse.map nfc
      ∧ (∀ r ∈ (preprocessData nfc data 0 false true).1, nfc r = r)
      ∧ (∀ a b, nfc a = nfc b → represent nfc 0 false true a = represent nfc 0 false true b)
      ∧ (preprocessData nfc data 0 false false).1 = data.reverse
      ∧ (∀ a b, a ≠ b → represent nfc 0 false false a ≠ represent nfc 0 false false b) := by
  have hon : represent nfc 0 false true = nfc := by
    funext e
    simp [represent]
  have hoff : represent nfc 0 false false = fun e => e := by
    funext e
    simp [represent]
  refine ⟨?_, ?_, ?_, ?_, ?_⟩
  · rw [preprocessData_fst, hon]
  · intro r hr
    rw [preprocessData_fst, hon] at hr
    obtain ⟨e, _, he⟩ := List.mem_map.mp hr
    rw [← he, hnf]
  · intro a b hab
    rw [hon]
    exact hab
  · rw [preprocessData_fst, hoff]
    simp
  · intro a b hab
    rw [hoff]
    exact hab

/-- Witness of C9: with the sample normaliser, the composed and the
decomposed "café". -/
theorem preprocessData_normalize_witness :
    (∀ s, composeSample (composeSample s) = composeSample s)
      ∧ (preprocessData composeSample [cafeComposed, cafeDecomposed] 0 false true).1
          = [cafeComposed, cafeComposed]
      ∧ (preprocessData composeSample [cafeComposed, cafeDecomposed] 0 false false).1
          = [cafeDecomposed, cafeComposed]
      ∧ ((preprocessData composeSample [cafeComposed, cafeDecomposed] 0 false true).1
          = ([cafeComposed, cafeDecomposed] : History).reverse.map composeSample
        ∧ (∀ r ∈ (preprocessData composeSample [cafeComposed, cafeDecomposed] 0 false true).1,
            composeSample r = r)
        ∧ (∀ a b, composeSample a = composeSample b →
            represent composeSample 0 false true a = represent composeSample 0 false true b)
        ∧ (preprocessData composeSample [cafeComposed, cafeDecomposed] 0 false false).1
            = ([cafeComposed, cafeDecomposed] : History).reverse
        ∧ (∀ a b, a ≠ b →
            represent composeSample 0 false false a
              ≠ represent composeSample 0 false false b)) := by
  have hnf : ∀ s, composeSample (composeSample s) = composeSample s := by
    intro s
    by_cases h : s = cafeDecomposed
    · simp [composeSample, h]
    · simp [composeSample, h]
  exact ⟨hnf, by decide, by decide,
    preprocessData_normalize composeSample [cafeComposed, cafeDecomposed] hnf⟩

/-! ## The clear action -/

theorem two_newest (history : History) (hlen : 2 ≤ history.length) :
    ∃ front p q, history = front ++ [p, q] := by
  rcases List.eq_nil_or_concat history with h | ⟨rest, q, h⟩
  · simp [h] at hlen
  · rcases List.eq_nil_or_concat rest with h2 | ⟨front, p, h2⟩
    · simp [h, h2] at hlen
    · exact ⟨front, p, q, by simp [h, h2]⟩

/-- C5, as stated, fails on a history that holds the served entry twice at
its end: for [a, c, c] and the selection c, `clear` serves c again and writes
[a], so the served buffer c is not the last element a of the history
written. -/
theorem clear_counterexample :
    mainClear (toolPrints [0x63, 0x0a]) id [[0x61], [0x63], [0x63]] "h.json" false 15
        "dmenu" "" false false false
        = .ret () [.serve [0x63], .writeFile "h.json" [[0x61]]]
      ∧ servedAfter (some [0x63]) [.serve [0x63], .writeFile "h.json" [[0x61]]] = some [0x63]
      ∧ ([[0x61]] : History).getLast? = some [0x61] := by
  decide

/-- C5, amended: for every history with at least two entries whose last
entry is the one being served, and every selected entry `s` that is not both
the last and the second-to-last entry, after the clear action the served
buffer is the last element of the history that is written, `filter history
s`: when `s` equals the last entry, `history[len-2]` is served and it is the
last element of `filter history s`; when `s` is not the last entry, nothing
is served and the last element is unchanged. -/
theorem clear_serves_last (env : Env) (nfc : GoString → GoString) (history : History)
    (histfile : String) (maxClearer : Int) (clearTool clearToolArgs : String)
    (clearEsc errorOnNoSelection normalize : Bool) (s : GoString)
    (htool : clearTool ≠ "")
    (hsel : selector env nfc history maxClearer clearTool "clear" clearToolArgs clearEsc
      errorOnNoSelection normalize = .ret (s, none) [])
    (hs : s ≠ []) (hlen : 2 ≤ history.length)
    (hdup : some s = history.getLast? → history[history.length - 2]? ≠ some s) :
    writtenIn (mainClear env nfc history histfile false maxClearer clearTool clearToolArgs
        clearEsc errorOnNoSelection normalize).effects = some (filter history s)
      ∧ servedAfter history.getLast? (mainClear env nfc history histfile false maxClearer
          clearTool clearToolArgs clearEsc errorOnNoSelection normalize).effects
        = (filter history s).getLast?
      ∧ (some s = history.getLast? →
          servedIn (mainClear env nfc history histfile false maxClearer clearTool
            clearToolArgs clearEsc errorOnNoSelection normalize).effects
            = (history[history.length - 2]?).toList
          ∧ (filter history s).getLast? = history[history.length - 2]?)
      ∧ (some s ≠ history.getLast? →
          servedIn (mainClear env nfc history histfile false maxClearer clearTool
            clearToolArgs clearEsc errorOnNoSelection normalize).effects = []
          ∧ (filter history s).getLast? = history.getLast?) := by
  obtain ⟨front, p, q, hh⟩ := two_newest history hlen
  subst hh
  have hl2 : ¬ (front ++ [p, q]).length < 2 := by omega
  have hprev : (front ++ [p, q])[(front ++ [p, q]).length - 2]? = some p := by
    rw [List.getElem?_append_right (by simp)]
    simp
  have hlastq : (front ++ [p, q]).getLast? = some q := by
    simp [List.getLast?_append]
  rw [hprev] at hdup ⊢
  rw [hlastq] at hdup ⊢
  have hmain : mainClear env nfc (front ++ [p, q]) histfile false maxClearer clearTool
      clearToolArgs clearEsc errorOnNoSelection normalize
      = clearSelection env (front ++ [p, q]) histfile s := by
    unfold mainClear
    simp only [Bool.false_eq_true, if_false, htool, hsel, hs, List.append_nil]
    cases clearSelection env (front ++ [p, q]) histfile s <;> simp [Outcome.after]
  rw [hmain]
  unfold clearSelection
  simp only [hl2, if_false, hprev, hlastq, write, filter_eq]
  by_cases hq : s = q
  · subst hq
    have hp : p ≠ s := fun h => hdup rfl (by rw [h])
    have hf : List.filter (fun x => decide (x ≠ s)) (front ++ [p, s])
        = List.filter (fun x => decide (x ≠ s)) front ++ [p] := by
      simp [List.filter_append, List.filter_cons, hp]
    rw [hf]
    cases env.writeFile histfile (List.filter (fun x => decide (x ≠ s)) front ++ [p]) <;>
      simp [Outcome.effects, logError, smartLog, serveTxt, writtenIn, servedAfter, servedIn]
  · have hq2 : ¬ q = s := fun h => hq h.symm
    have hf : List.filter (fun x => decide (x ≠ s)) (front ++ [p, q])
        = List.filter (fun x => decide (x ≠ s)) (front ++ [p]) ++ [q] := by
      rw [show front ++ [p, q] = (front ++ [p]) ++ [q] by simp, List.filter_append]
      simp [hq2]
    rw [hf]
    cases env.writeFile histfile (List.filter (fun x => decide (x ≠ s)) (front ++ [p]) ++ [q]) <;>
      simp [Outcome.effects, logError, smartLog, serveTxt, writtenIn, servedAfter, servedIn, hq]

/-- Witness of C5, amended: the history [a, b, c] with the selection c
serves b and writes [a, b]. -/
theorem clear_serves_last_witness :
    mainClear (toolPrints [0x63, 0x0a]) id [[0x61], [0x62], [0x63]] "h.json" false 15
        "dmenu" "" false false false
        = .ret () [.serve [0x62], .writeFile "h.json" [[0x61], [0x62]]]
      ∧ (writtenIn (mainClear (toolPrints [0x63, 0x0a]) id [[0x61], [0x62], [0x63]] "h.json"
            false 15 "dmenu" "" false false false).effects
          = some (filter [[0x61], [0x62], [0x63]] [0x63])
        ∧ servedAfter ([[0x61], [0x62], [0x63]] : History).getLast?
            (mainClear (toolPrints [0x63, 0x0a]) id [[0x61], [0x62], [0x63]] "h.json"
              false 15 "dmenu" "" false false false).effects
          = (filter [[0x61], [0x62], [0x63]] [0x63]).getLast?
        ∧ (some [0x63] = ([[0x61], [0x62], [0x63]] : History).getLast? →
            servedIn (mainClear (toolPrints [0x63, 0x0a]) id [[0x61], [0x62], [0x63]]
              "h.json" false 15 "dmenu" "" false false false).effects
              = (([[0x61], [0x62], [0x63]] : History)[
                  ([[0x61], [0x62], [0x63]] : History).length - 2]?).toList
            ∧ (filter [[0x61], [0x62], [0x63]] [0x63]).getLast?
              = ([[0x61], [0x62], [0x63]] : History)[
                  ([[0x61], [0x62], [0x63]] : History).length - 2]?)
        ∧ (some [0x63] ≠ ([[0x61], [0x62], [0x63]] : History).getLast? →
            servedIn (mainClear (toolPrints [0x63, 0x0a]) id [[0x61], [0x62], [0x63]]
              "h.json" false 15 "dmenu" "" false false false).effects = []
            ∧ (filter [[0x61], [0x62], [0x63]] [0x63]).getLast?
              = ([[0x61], [0x62], [0x63]] : History).getLast?)) :=
  ⟨by decide,
    clear_serves_last (toolPrints [0x63, 0x0a]) id [[0x61], [0x62], [0x63]] "h.json" 15
      "dmenu" "" false false false [0x63] (by decide) (by decide) (by decide) (by decide)
      (by decide)⟩

end Clipman
